import Mathlib

/-!
Shallow embedding of the IndexedDB data-cache core of the repository
(src/db/dataCache.js, in its most evolved variant: env-configured store
names, version reconciliation in initAndCacheData, and the non-repeating
random sampler _pickRandomKeyFromStore).

JavaScript values and IndexedDB keys are modelled by small inductive
types; object stores and the database are association lists; the
asynchronous callback structure of the source is flattened into pure
functions returning Except (a rejected promise / thrown DOMException is
an error value), and assignments to the module-level memo variables are
modelled by an explicit session-state record.
-/

set_option autoImplicit false

namespace DataCache

/-- Decidable equality of settled promise outcomes, so that concrete runs
of the embedded operations can be evaluated inside proofs. -/
instance {ε α : Type} [DecidableEq ε] [DecidableEq α] : DecidableEq (Except ε α)
  | .ok a, .ok b =>
    if h : a = b then .isTrue (by rw [h]) else .isFalse (fun hc => by cases hc; exact h rfl)
  | .ok _, .error _ => .isFalse (fun hc => by cases hc)
  | .error _, .ok _ => .isFalse (fun hc => by cases hc)
  | .error e, .error f =>
    if h : e = f then .isTrue (by rw [h]) else .isFalse (fun hc => by cases hc; exact h rfl)

/-- A JavaScript scalar value as it occurs in the cached dataset records
(strings, numbers, null).  Numbers are modelled as integers, which covers
every value the claims exercise. -/
inductive JSValue where
  | str : String → JSValue
  | num : Int → JSValue
  | null : JSValue
  deriving DecidableEq, Repr

/-- A valid IndexedDB key: a number or a string. -/
inductive JSKey where
  | num : Int → JSKey
  | str : String → JSKey
  deriving DecidableEq, Repr

/-- JavaScript truthiness of a key: the number 0 and the empty string are
falsy, every other valid key is truthy.  This is what the source's
`if (!key)` test computes on a defined key. -/
def JSKey.falsy : JSKey → Bool
  | .num n => decide (n = 0)
  | .str s => decide (s = "")

/-- Conversion of a JavaScript value to an IndexedDB key: numbers and
strings are valid keys, null is not (storing a record whose key path
evaluates to null throws DataError). -/
def toKey : JSValue → Option JSKey
  | .str s => some (.str s)
  | .num n => some (.num n)
  | .null => none

/-- The IndexedDB key ordering restricted to our keys: every number sorts
before every string, numbers by value, strings lexicographically. -/
def JSKey.lt : JSKey → JSKey → Bool
  | .num a, .num b => decide (a < b)
  | .num _, .str _ => true
  | .str _, .num _ => false
  | .str a, .str b => decide (a < b)

/-- A record (a plain JavaScript object): a list of field/value pairs in
property-insertion order, with distinct field names. -/
abbrev JSRecord := List (String × JSValue)

/-- Property read `r[f]`: the value of field `f`, or none (undefined) when
the field is absent. -/
def recGet (r : JSRecord) (f : String) : Option JSValue :=
  (r.find? (fun p => decide (p.1 = f))).map (·.2)

/-- Property write `r[f] = v`: updates the field in place when present,
otherwise appends it (JavaScript property-insertion order). -/
def recSet (r : JSRecord) (f : String) (v : JSValue) : JSRecord :=
  match r with
  | [] => [(f, v)]
  | p :: t => if p.1 = f then (f, v) :: t else p :: recSet t f v

/-- The errors the embedded operations can produce.
`storeNameRequired` is the `new Error("storeName is required")` thrown by
getFromStore's argument guard; `storeNotOpen` is the NotFoundError
DOMException thrown by `db.transaction` / `tx.objectStore` on a store
name that no successful population has created (the spec's error taxonomy
calls this StoreNotOpenError); `dataError` is the DataError DOMException
thrown by `store.put` when the key path yields an invalid key. -/
inductive DBErr where
  | storeNameRequired
  | storeNotOpen
  | dataError
  deriving DecidableEq, Repr

/-- An IndexedDB object store as created by the source: an in-line key
path, an auto-increment flag, the stored records as a key-sorted
association list, and the key generator's next value (starting at 1). -/
structure ObjectStore where
  keyPath : String
  autoIncrement : Bool
  records : List (JSKey × JSRecord)
  gen : Int
  deriving DecidableEq, Repr

/-- A freshly created object store (createObjectStore). -/
def mkStore (kp : String) (ai : Bool) : ObjectStore :=
  { keyPath := kp, autoIncrement := ai, records := [], gen := 1 }

/-- Insert a record at its key, keeping the association list sorted in
IndexedDB key order; an existing record under the same key is replaced
(put semantics). -/
def insertSorted (k : JSKey) (v : JSRecord) :
    List (JSKey × JSRecord) → List (JSKey × JSRecord)
  | [] => [(k, v)]
  | (k1, v1) :: rest =>
    if k = k1 then (k, v) :: rest
    else if JSKey.lt k k1 then (k, v) :: (k1, v1) :: rest
    else (k1, v1) :: insertSorted k v rest

/-- `store.put(row)` on a store with an in-line key path: if the key path
yields a value it must be a valid key (else DataError) and the row is
stored under it, bumping the key generator past explicit numeric keys;
if the key path yields no value and the store auto-increments, a key is
generated and injected into the stored value at the key path; otherwise
DataError. -/
def storePut (s : ObjectStore) (row : JSRecord) : Except DBErr ObjectStore :=
  match recGet row s.keyPath with
  | some v =>
    match toKey v with
    | some k =>
      let g := match k with
        | .num n => if s.gen ≤ n then n + 1 else s.gen
        | .str _ => s.gen
      .ok { s with records := insertSorted k row s.records, gen := g }
    | none => .error .dataError
  | none =>
    if s.autoIncrement then
      .ok { s with
        records := insertSorted (.num s.gen) (recSet row s.keyPath (.num s.gen)) s.records,
        gen := s.gen + 1 }
    else .error .dataError

/-- `store.get(k)`: the record stored under `k`, or none (undefined). -/
def storeGet (s : ObjectStore) (k : JSKey) : Option JSRecord :=
  (s.records.find? (fun p => decide (p.1 = k))).map (·.2)

/-- `store.getAllKeys()`: all keys of the store in key order. -/
def storeKeys (s : ObjectStore) : List JSKey :=
  s.records.map (·.1)

/-- Write a whole list of rows into a store (the per-sheet put loop of
the upgrade handler); the first failing put aborts. -/
def putAll (s : ObjectStore) (rows : List JSRecord) : Except DBErr ObjectStore :=
  rows.foldlM storePut s

/-- An IndexedDB database: its object stores as an association list in
creation order (objectStoreNames). -/
structure IDB where
  stores : List (String × ObjectStore)
  deriving DecidableEq, Repr

/-- The database freshly created by an open request with no populate data
(the upgrade handler returns immediately when `data` is null, so no
object store exists). -/
def emptyIDB : IDB := ⟨[]⟩

/-- The store registered under a name, none when absent. -/
def dbLookup (db : IDB) (n : String) : Option ObjectStore :=
  (db.stores.find? (fun p => decide (p.1 = n))).map (·.2)

/-- `db.objectStoreNames` as a list. -/
def dbStoreNames (db : IDB) : List String :=
  db.stores.map (·.1)

/-- `db.objectStoreNames.contains(n)`. -/
def dbHasStore (db : IDB) (n : String) : Bool :=
  db.stores.any (fun p => decide (p.1 = n))

/-- `db.createObjectStore(n, ...)`. -/
def dbCreateStore (db : IDB) (n : String) (s : ObjectStore) : IDB :=
  ⟨db.stores ++ [(n, s)]⟩

/-- Replace the store registered under `n` (the effect of a put issued
through a transaction on that store). -/
def dbUpdate (db : IDB) (n : String) (s : ObjectStore) : IDB :=
  ⟨db.stores.map (fun p => if p.1 = n then (n, s) else p)⟩

/-- `tx.objectStore(n).put(row)`: NotFoundError when the store does not
exist, otherwise the put is applied to it. -/
def dbPutInto (db : IDB) (n : String) (row : JSRecord) : Except DBErr IDB :=
  match dbLookup db n with
  | none => .error .storeNotOpen
  | some s => (storePut s row).map (fun s1 => dbUpdate db n s1)

/-- The environment-supplied configuration of the module
(REACT_APP_META_STORE, REACT_APP_META_RECORD_ID, REACT_APP_KEY_ID). -/
structure Config where
  metaStore : String
  metaRecordId : String
  keyId : String
  deriving DecidableEq, Repr

/-- The configuration the repository's test environment installs. -/
def cfg0 : Config := { metaStore := "meta", metaRecordId := "meta-id", keyId := "id" }

/-- One top-level value of the fetched JSON document: a collection (an
array of records) or a primitive (the version stamp). -/
inductive TopVal where
  | arr : List JSRecord → TopVal
  | prim : JSValue → TopVal
  deriving DecidableEq, Repr

/-- The parsed JSON dataset: its top-level fields in order, with distinct
names (a JavaScript object). -/
structure RawData where
  fields : List (String × TopVal)
  deriving DecidableEq, Repr

/-- `data.version` as the meta comparison sees it (undefined when the
field is absent; a well-formed dataset carries a string here). -/
def dataVersion (d : RawData) : Option JSValue :=
  match (d.fields.find? (fun p => decide (p.1 = "version"))).map (·.2) with
  | some (TopVal.prim v) => some v
  | _ => none

/-- `Object.keys(data).filter((k) => k !== "version")`: the sheet names
the upgrade handler iterates. -/
def sheetNames (d : RawData) : List String :=
  (d.fields.map (·.1)).filter (fun k => decide (k ≠ "version"))

/-- `data[sheetName] || []`: the rows of one sheet. -/
def sheetRows (d : RawData) (n : String) : List JSRecord :=
  match (d.fields.find? (fun p => decide (p.1 = n))).map (·.2) with
  | some (TopVal.arr rows) => rows
  | _ => []

/-- Well-formedness of a fetched dataset, as the converter produces it:
distinct top-level names, the version field holding a primitive, every
other field holding an array of records. -/
def dataWF (d : RawData) : Prop :=
  (d.fields.map (·.1)).Nodup ∧
  ∀ p ∈ d.fields, (p.1 = "version" → ∃ v, p.2 = .prim v) ∧
    (p.1 ≠ "version" → ∃ rows, p.2 = .arr rows)

/-- The meta record the upgrade handler writes:
`{ version: data.version }` with the meta record id assigned at the key
field. -/
def metaRecOf (cfg : Config) (d : RawData) : JSRecord :=
  let base : JSRecord := match dataVersion d with
    | some v => [("version", v)]
    | none => []
  recSet base cfg.keyId (.str cfg.metaRecordId)

/-- The per-sheet body of the upgrade loop: create the sheet's store if
absent (key path KEY_ID, auto-increment), then put every row of the sheet
through the upgrade transaction. -/
def populateSheet (cfg : Config) (d : RawData) (db : IDB) (n : String) :
    Except DBErr IDB :=
  let db1 := if dbHasStore db n then db else dbCreateStore db n (mkStore cfg.keyId true)
  (sheetRows d n).foldlM (fun acc row => dbPutInto acc n row) db1

/-- The whole upgrade handler of `openDB(data)` on a freshly created
database (the open issued right after deleteDatabase): create and fill
one store per non-version top-level key, then create the meta store
(key path KEY_ID, no auto-increment) if absent and put the meta record.
All writes go through the single upgrade transaction, so the first
failure aborts the open request and no database is committed. -/
def populateUpgrade (cfg : Config) (d : RawData) : Except DBErr IDB := do
  let db ← (sheetNames d).foldlM (populateSheet cfg d) emptyIDB
  let db1 := if dbHasStore db cfg.metaStore then db
    else dbCreateStore db cfg.metaStore (mkStore cfg.keyId false)
  dbPutInto db1 cfg.metaStore (metaRecOf cfg d)

/-- The meta record currently installed in a database. -/
def dbMetaGet (cfg : Config) (db : IDB) : Option JSRecord :=
  (dbLookup db cfg.metaStore).bind (fun s => storeGet s (.str cfg.metaRecordId))

/-- The version recorded in the installed meta record (`meta.version`). -/
def dbMetaVersion (cfg : Config) (db : IDB) : Option JSValue :=
  (dbMetaGet cfg db).bind (fun m => recGet m "version")

/-- What probing the existing database produced, as seen by the decision
code of initAndCacheData: either some step inside the try block threw
(openDB rejected), or the database was opened and — where the code gets
that far — the meta-record read either threw or returned an optional
record. -/
inductive ProbeResult where
  | openFailed
  | opened (db : IDB) (metaRead : Except Unit (Option JSRecord))

/-- The decision chain of initAndCacheData, translated clause by clause:
any probe error means repopulate; else zero object stores, a missing meta
store, a failed or empty meta read, or a version mismatch mean
repopulate; otherwise the existing database is reused. -/
def needPopulate (cfg : Config) (pr : ProbeResult) (fetched : Option JSValue) : Bool :=
  match pr with
  | .openFailed => true
  | .opened db metaRead =>
    if db.stores.length = 0 then true
    else if ¬ dbHasStore db cfg.metaStore then true
    else match metaRead with
      | .error _ => true
      | .ok none => true
      | .ok (some m) => decide (recGet m "version" ≠ fetched)

/-- The probe outcome in the error-free environment: openDB returns the
durable database (an empty fresh one when none exists) and the meta read
succeeds. -/
def probeOf (cfg : Config) (world : Option IDB) : ProbeResult :=
  let db := world.getD emptyIDB
  .opened db (.ok (dbMetaGet cfg db))

/-- One full run of the initAndCacheData body in a fresh process (the
memo is empty), against the durable database `world`, after the fetch
produced `d`: probe, decide, then either delete-and-repopulate or reuse.
Returns the settled result and the durable database afterwards; when the
single upgrade transaction of the repopulating open aborts, the open
request fails after the deletion, so no database remains. -/
def initRun (cfg : Config) (world : Option IDB) (d : RawData) :
    Except DBErr RawData × Option IDB :=
  if needPopulate cfg (probeOf cfg world) (dataVersion d) then
    match populateUpgrade cfg d with
    | .ok db => (.ok d, some db)
    | .error e => (.error e, none)
  else (.ok d, world)

/-- Concrete decidability shortcuts, so that runs of the embedded
operations on concrete inputs can be evaluated by the kernel. -/
instance : DecidableEq (Except DBErr (Option JSRecord × List JSKey)) := inferInstance

instance : DecidableEq (Except DBErr IDB) := inferInstance

instance : DecidableEq (Except DBErr RawData) := inferInstance

instance : DecidableEq (Except DBErr ObjectStore) := inferInstance

/-- The body of _pickRandomKeyFromStore, given the keys returned by
getAllKeys, the per-store used set (_usedDataIDs.get(storeName), the
empty list when absent), and the index drawn by Math.random: resolve
undefined on an empty store; clear the used set once it has grown to the
key count; filter out used keys; resolve undefined if nothing remains;
otherwise pick, record as used, and resolve the picked key.  The used set
is a JavaScript Set; since the code only ever adds keys that the filter
just proved absent, a duplicate-free list models it exactly.  Returns the
resolved key and the used set as the call leaves it. -/
def pickRandomKey (keys used : List JSKey) (rand : Nat) :
    Option JSKey × List JSKey :=
  if keys = [] then (none, used)
  else
    let used1 := if keys.length ≤ used.length then [] else used
    let available := keys.filter (fun k => decide (k ∉ used1))
    if available = [] then (none, used1)
    else
      let picked := available.getD (rand % available.length) (.num 0)
      (some picked, picked :: used1)

/-- A sequence of consecutive _pickRandomKeyFromStore calls against a
store whose key set does not change, one random draw per call, threading
the per-store used set; returns the resolved keys in call order and the
final used set. -/
def runSampler (keys : List JSKey) : List Nat → List JSKey →
    List (Option JSKey) × List JSKey
  | [], used => ([], used)
  | r :: rs, used =>
    let step := pickRandomKey keys used r
    let rest := runSampler keys rs step.2
    (step.1 :: rest.1, rest.2)

/-- getFromStore (sampler variant), flattened: the storeName guard, the
transaction/objectStore lookup (NotFoundError on a store no population
created), the random pick, the `if (!key) return undefined` truthiness
test, then the point read of the picked key.  Returns the settled value
(undefined modelled as none) together with the per-store used set as the
call leaves it. -/
def getFromStore (db : IDB) (storeName : String) (used : List JSKey)
    (rand : Nat) : Except DBErr (Option JSRecord × List JSKey) :=
  if storeName = "" then .error .storeNameRequired
  else match dbLookup db storeName with
    | none => .error .storeNotOpen
    | some s =>
      let pick := pickRandomKey (storeKeys s) used rand
      match pick.1 with
      | none => .ok (none, pick.2)
      | some k =>
        if k.falsy then .ok (none, pick.2)
        else .ok (storeGet s k, pick.2)

/-- The module-level session state: the two memoized promises (as
allocation-order identifiers, so that identity of promise objects is
observable), the next fresh promise identifier, and instrumentation
counting network fetches and wipe/populate cycles. -/
structure Session where
  initP : Option Nat
  dbP : Option Nat
  nextId : Nat
  fetches : Nat
  populates : Nat
  deriving DecidableEq, Repr

/-- The state of a freshly loaded module: both memos null. -/
def freshSession : Session := ⟨none, none, 0, 0, 0⟩

/-- openDB() on the success path: return the cached promise when one is
memoized, otherwise create a new promise, memoize it, and return it. -/
def openDBCall (s : Session) : Nat × Session :=
  match s.dbP with
  | some p => (p, s)
  | none => (s.nextId, { s with dbP := some s.nextId, nextId := s.nextId + 1 })

/-- openDB() when the open request fires onerror: the freshly created
promise is memoized and then cleared again by the error handler, so the
memo ends null (a cached promise is returned untouched instead). -/
def openDBFailCall (s : Session) : Session :=
  match s.dbP with
  | some _ => s
  | none => { s with dbP := none, nextId := s.nextId + 1 }

/-- The environment of one initAndCacheData body run: the fetch fails, or
it succeeds and the probe open fails or not, the reconciliation decides
to repopulate or not, and the repopulating open fails or not. -/
inductive InitEnv where
  | fetchFail
  | run (openFails : Bool) (needPop : Bool) (popFails : Bool)
  deriving DecidableEq, Repr

/-- The effect of the already-started initAndCacheData body on the
session state.  A failed fetch rejects the body before any database work
(the init memo stays assigned).  Otherwise the probe awaits openDB()
(memoizing a db promise when none was cached, or losing it again when the
open fails, which the catch block turns into needPopulate); the
repopulate path nulls the db memo, awaits openDB(data) (memoizing a fresh
promise, or clearing it on failure and rejecting the body) and finally
replaces the memo by Promise.resolve(db), a new promise object; the reuse
path replaces the memo by Promise.resolve(existingDB), also a new promise
object. -/
def initBodyEffect (env : InitEnv) (s : Session) : Session :=
  match env with
  | .fetchFail => s
  | .run openFails needPop popFails =>
    let s1 := if openFails then openDBFailCall s else (openDBCall s).2
    let np := if openFails then true else needPop
    if np then
      let s2 := { s1 with dbP := none, populates := s1.populates + 1 }
      if popFails then { s2 with nextId := s2.nextId + 1 }
      else { s2 with dbP := some (s2.nextId + 1), nextId := s2.nextId + 2 }
    else
      { s1 with dbP := some s1.nextId, nextId := s1.nextId + 1 }

/-- initAndCacheData(): return the memoized promise when one exists;
otherwise create the body's promise, memoize it synchronously (no await
happens between the null check and the assignment, so no other caller can
interleave), count the fetch the body issues, and run the body's
effects. -/
def initCall (env : InitEnv) (s : Session) : Nat × Session :=
  match s.initP with
  | some p => (p, s)
  | none =>
    let pid := s.nextId
    let s1 := { s with initP := some pid, nextId := s.nextId + 1,
                       fetches := s.fetches + 1 }
    (pid, initBodyEffect env s1)

/-- A sequence of initAndCacheData() calls, one environment per call;
returns the promise each caller received and the final session state. -/
def runInits : List InitEnv → Session → List Nat × Session
  | [], s => ([], s)
  | e :: es, s =>
    let step := initCall e s
    let rest := runInits es step.2
    (step.1 :: rest.1, rest.2)

/-- Every module-level operation that touches the two memos, for stating
invariants over the session state. -/
inductive SessionOp where
  | openOk
  | openFail
  | init (env : InitEnv)

/-- Apply one operation to the session state. -/
def applyOp : SessionOp → Session → Session
  | .openOk, s => (openDBCall s).2
  | .openFail, s => openDBFailCall s
  | .init env, s => (initCall env s).2

/-! ## Specification-side and fixture definitions -/

/-- The ordered decision rule as the specification states it (a
declarative disjunction per probe outcome, for comparison with the
decision chain translated from the code): repopulate exactly when the
probe errored, or the opened database has zero object stores, or the
meta store is absent, or the meta read failed, or the meta record is
absent, or its stored version differs from the freshly fetched one. -/
def reconcileRuleSpec (cfg : Config) (pr : ProbeResult)
    (fetched : Option JSValue) : Prop :=
  match pr with
  | .openFailed => True
  | .opened db mr =>
    db.stores.length = 0 ∨ dbHasStore db cfg.metaStore = false ∨
    mr = .error () ∨ mr = .ok none ∨
    ∃ m, mr = .ok (some m) ∧ recGet m "version" ≠ fetched

/-- A concrete dataset and the database its population installs, used as
fixtures by several witnesses. -/
def sampleData : RawData :=
  ⟨[("0", .arr [[("text", .str "a")]]), ("version", .prim (.str "t1"))]⟩

/-- The database produced by populating sampleData (populate succeeds on
it, as the witnesses check). -/
def sampleDB : IDB :=
  match populateUpgrade cfg0 sampleData with
  | .ok db => db
  | .error _ => emptyIDB

/-- A second sample dataset carrying a different version stamp. -/
def sampleData2 : RawData :=
  ⟨[("0", .arr [[("text", .str "b")]]), ("version", .prim (.str "t2"))]⟩

/-- The database produced by populating sampleData2. -/
def sampleDB2 : IDB :=
  match populateUpgrade cfg0 sampleData2 with
  | .ok db => db
  | .error _ => emptyIDB

/-- The dataset whose only collection is named by the empty string; the
populate path happily creates a store named "". -/
def emptyNameData : RawData :=
  ⟨[("", .arr []), ("version", .prim (.str "t1"))]⟩

/-- The contents a fresh auto-increment store accumulates from rows that
carry no key field: the i-th row is stored under the generated key g + i,
which is also injected into the stored copy of the row. -/
def genRecords (keyId : String) (g : Int) : List JSRecord → List (JSKey × JSRecord)
  | [] => []
  | r :: rs => (.num g, recSet r keyId (.num g)) :: genRecords keyId (g + 1) rs

/-- The first record of sampleData as it appears in the dataset. -/
def sampleRow : JSRecord := [("text", .str "a")]

/-! ## Lemmas about the sampler -/

lemma getD_mod_mem (l : List JSKey) (r : Nat) (d : JSKey) (h : l ≠ []) :
    l.getD (r % l.length) d ∈ l := by
  have hmod : r % l.length < l.length := Nat.mod_lt _ (List.length_pos.mpr h)
  rw [List.getD_eq_getElem _ _ hmod]
  exact List.getElem_mem _

/-- A sampler call against a full used set clears it and picks among all
keys: the result is the key at the drawn index and the used set restarts
holding just that key. -/
lemma pickRandomKey_full (keys used : List JSKey) (r : Nat) (hk : keys ≠ [])
    (hge : keys.length ≤ used.length) :
    ∃ k, keys.get? (r % keys.length) = some k ∧
      pickRandomKey keys used r = (some k, [k]) := by
  have hfil : keys.filter (fun k => decide (k ∉ ([] : List JSKey))) = keys :=
    List.filter_eq_self.mpr (fun a _ => by simp)
  have hmod : r % keys.length < keys.length :=
    Nat.mod_lt _ (List.length_pos.mpr hk)
  refine ⟨keys.getD (r % keys.length) (.num 0), ?_, ?_⟩
  · rw [List.getD_eq_getElem _ _ hmod]
    exact List.get?_eq_get hmod
  · unfold pickRandomKey
    rw [if_neg hk]
    simp only [if_pos hge, hfil, if_neg hk]

/-- A sampler call against a not-yet-full used set picks some key outside
the used set and appends it to the used set. -/
lemma pickRandomKey_step (keys used : List JSKey) (r : Nat)
    (hk : keys ≠ []) (hnd : keys.Nodup)
    (hlt : used.length < keys.length) :
    ∃ k, pickRandomKey keys used r = (some k, k :: used) ∧ k ∈ keys ∧ k ∉ used := by
  have hlen : ¬ keys.length ≤ used.length := Nat.not_le.mpr hlt
  have hav : keys.filter (fun k => decide (k ∉ used)) ≠ [] := by
    intro hfil
    have hsub2 : keys ⊆ used := by
      intro x hx
      by_contra hxu
      have hmem : x ∈ keys.filter (fun k => decide (k ∉ used)) := by
        rw [List.mem_filter]
        exact ⟨hx, by simpa using hxu⟩
      rw [hfil] at hmem
      exact absurd hmem (List.not_mem_nil x)
    have := (hnd.subperm hsub2).length_le
    omega
  set available := keys.filter (fun k => decide (k ∉ used)) with havdef
  set k := available.getD (r % available.length) (.num 0) with hkdef
  have hpickmem : k ∈ available := getD_mod_mem available r _ hav
  rw [havdef, List.mem_filter] at hpickmem
  refine ⟨k, ?_, hpickmem.1, by simpa using hpickmem.2⟩
  unfold pickRandomKey
  rw [if_neg hk]
  simp only [if_neg hlen, ← havdef, if_neg hav, ← hkdef]

lemma runSampler_cons (keys : List JSKey) (r : Nat) (rs : List Nat)
    (used : List JSKey) :
    runSampler keys (r :: rs) used =
      ((pickRandomKey keys used r).1 ::
        (runSampler keys rs (pickRandomKey keys used r).2).1,
       (runSampler keys rs (pickRandomKey keys used r).2).2) := rfl

/-- Invariant of a run of consecutive sampler calls that stays within one
cycle: every call resolves a key, the keys are pairwise distinct and
disjoint from the incoming used set, and the used set accumulates exactly
the picked keys. -/
lemma runSampler_spec (keys : List JSKey) (hk : keys ≠ []) (hnd : keys.Nodup) :
    ∀ (rands : List Nat) (used : List JSKey), used.Nodup →
      used.length + rands.length ≤ keys.length →
      ∃ picked : List JSKey,
        (runSampler keys rands used).1 = picked.map some ∧
        (runSampler keys rands used).2 = picked.reverse ++ used ∧
        picked.length = rands.length ∧
        (picked ++ used).Nodup ∧
        ∀ x ∈ picked, x ∈ keys := by
  intro rands
  induction rands with
  | nil =>
    intro used hu _
    exact ⟨[], rfl, rfl, rfl, by simpa using hu, by simp⟩
  | cons r rs ih =>
    intro used hu hle
    have hlt : used.length < keys.length := by
      simp only [List.length_cons] at hle
      omega
    obtain ⟨k, hpick, hkm, hknu⟩ := pickRandomKey_step keys used r hk hnd hlt
    have hu2 : (k :: used).Nodup := List.nodup_cons.mpr ⟨hknu, hu⟩
    have hle2 : (k :: used).length + rs.length ≤ keys.length := by
      simp only [List.length_cons] at hle ⊢
      omega
    obtain ⟨picked, h1, h2, h3, h4, h5⟩ := ih (k :: used) hu2 hle2
    refine ⟨k :: picked, ?_, ?_, ?_, ?_, ?_⟩
    · rw [runSampler_cons, hpick]
      simp [h1]
    · rw [runSampler_cons, hpick]
      simp only [h2, List.reverse_cons, List.append_assoc, List.singleton_append]
    · simp [h3]
    · have hperm : (picked ++ k :: used).Perm (k :: (picked ++ used)) :=
        List.perm_middle
      have := hperm.nodup h4
      simpa using this
    · intro x hx
      rcases List.mem_cons.mp hx with h | h
      · rw [h]; exact hkm
      · exact h5 x h

/-- Every key listed by getAllKeys has a record stored under it. -/
lemma find_of_mem_map_fst (l : List (JSKey × JSRecord)) (k : JSKey)
    (h : k ∈ l.map Prod.fst) :
    ∃ v, (l.find? (fun p => decide (p.1 = k))).map (·.2) = some v := by
  induction l with
  | nil => simp at h
  | cons p t ih =>
    by_cases hp : p.1 = k
    · exact ⟨p.2, by simp [List.find?_cons_of_pos, hp]⟩
    · have hmem : k ∈ t.map Prod.fst := by
        rcases List.mem_cons.mp h with h1 | h1
        · exact absurd h1.symm hp
        · exact h1
      obtain ⟨v, hv⟩ := ih hmem
      exact ⟨v, by rw [List.find?_cons_of_neg _ (by simpa using hp)]; exact hv⟩

/-- Whenever a sampler call resolves a key, that key comes from the store
and has just been recorded in the used set the call leaves behind. -/
lemma pickRandomKey_some (keys used : List JSKey) (r : Nat) (k : JSKey)
    (h : (pickRandomKey keys used r).1 = some k) :
    keys ≠ [] ∧ k ∈ keys ∧ k ∈ (pickRandomKey keys used r).2 := by
  by_cases hk : keys = []
  · subst hk
    simp [pickRandomKey] at h
  · refine ⟨hk, ?_⟩
    unfold pickRandomKey at h ⊢
    rw [if_neg hk] at h ⊢
    by_cases hge : keys.length ≤ used.length
    · simp only [if_pos hge] at h ⊢
      set av := keys.filter (fun x => decide (x ∉ ([] : List JSKey))) with havdef
      by_cases hav : av = []
      · rw [if_pos hav] at h
        simp at h
      · rw [if_neg hav] at h ⊢
        have hk2 : av.getD (r % av.length) (.num 0) = k := by simpa using h
        have hmem : k ∈ av := hk2 ▸ getD_mod_mem av r _ hav
        rw [havdef, List.mem_filter] at hmem
        refine ⟨hmem.1, ?_⟩
        show k ∈ av.getD (r % av.length) (.num 0) :: []
        rw [hk2]
        exact List.mem_cons_self _ _
    · simp only [if_neg hge] at h ⊢
      set av := keys.filter (fun x => decide (x ∉ used)) with havdef
      by_cases hav : av = []
      · rw [if_pos hav] at h
        simp at h
      · rw [if_neg hav] at h ⊢
        have hk2 : av.getD (r % av.length) (.num 0) = k := by simpa using h
        have hmem : k ∈ av := hk2 ▸ getD_mod_mem av r _ hav
        rw [havdef, List.mem_filter] at hmem
        refine ⟨hmem.1, ?_⟩
        show k ∈ av.getD (r % av.length) (.num 0) :: used
        rw [hk2]
        exact List.mem_cons_self _ _

/-! ## Lemmas about records and the database -/

lemma recGet_recSet_self (r : JSRecord) (f : String) (v : JSValue) :
    recGet (recSet r f v) f = some v := by
  induction r with
  | nil => simp [recSet, recGet]
  | cons p t ih =>
    by_cases hp : p.1 = f
    · simp [recSet, hp, recGet]
    · simp only [recSet, if_neg hp]
      unfold recGet at ih ⊢
      rw [List.find?_cons_of_neg _ (by simpa using hp)]
      exact ih

lemma recGet_recSet_ne (r : JSRecord) (f g : String) (v : JSValue)
    (h : f ≠ g) :
    recGet (recSet r g v) f = recGet r f := by
  induction r with
  | nil =>
    unfold recSet recGet
    rw [List.find?_cons_of_neg _ (by simpa using h.symm)]
  | cons p t ih =>
    by_cases hp : p.1 = g
    · unfold recSet recGet
      rw [if_pos hp]
      rw [List.find?_cons_of_neg _ (by simpa using h.symm)]
      rw [List.find?_cons_of_neg _ (by simp [hp, h.symm])]
    · unfold recSet
      rw [if_neg hp]
      by_cases hf : p.1 = f
      · unfold recGet
        rw [List.find?_cons_of_pos _ (by simpa using hf)]
        rw [List.find?_cons_of_pos _ (by simpa using hf)]
      · unfold recGet at ih ⊢
        rw [List.find?_cons_of_neg _ (by simpa using hf)]
        rw [List.find?_cons_of_neg _ (by simpa using hf)]
        exact ih

lemma any_eq_find_isSome (l : List (String × ObjectStore)) (n : String) :
    l.any (fun p => decide (p.1 = n)) =
      (l.find? (fun p => decide (p.1 = n))).isSome := by
  induction l with
  | nil => rfl
  | cons p t ih =>
    by_cases hp : p.1 = n
    · rw [List.any_cons, List.find?_cons_of_pos _ (by simpa using hp)]
      simp [hp]
    · rw [List.any_cons, List.find?_cons_of_neg _ (by simpa using hp)]
      simpa [hp] using ih

lemma find?_map_update_self (l : List (String × ObjectStore)) (n : String)
    (s1 : ObjectStore) (h : (l.find? (fun p => decide (p.1 = n))).isSome) :
    (l.map (fun p => if p.1 = n then (n, s1) else p)).find?
      (fun p => decide (p.1 = n)) = some (n, s1) := by
  induction l with
  | nil => simp at h
  | cons p t ih =>
    by_cases hp : p.1 = n
    · rw [List.map_cons, if_pos hp, List.find?_cons_of_pos _ (by simp)]
    · rw [List.find?_cons_of_neg _ (by simpa using hp)] at h
      rw [List.map_cons, if_neg hp, List.find?_cons_of_neg _ (by simpa using hp)]
      exact ih h

lemma find?_map_update_ne (l : List (String × ObjectStore)) (n m : String)
    (s1 : ObjectStore) (h : m ≠ n) :
    (l.map (fun p => if p.1 = n then (n, s1) else p)).find?
      (fun p => decide (p.1 = m)) = l.find? (fun p => decide (p.1 = m)) := by
  induction l with
  | nil => rfl
  | cons p t ih =>
    by_cases hp : p.1 = n
    · rw [List.map_cons, if_pos hp]
      rw [List.find?_cons_of_neg _ (by simpa using (h.symm : ¬ n = m))]
      rw [List.find?_cons_of_neg _ (by rw [hp]; simpa using (h.symm : ¬ n = m))]
      exact ih
    · by_cases hm : p.1 = m
      · rw [List.map_cons, if_neg hp]
        rw [List.find?_cons_of_pos _ (by simpa using hm)]
        rw [List.find?_cons_of_pos _ (by simpa using hm)]
      · rw [List.map_cons, if_neg hp]
        rw [List.find?_cons_of_neg _ (by simpa using hm)]
        rw [List.find?_cons_of_neg _ (by simpa using hm)]
        exact ih

lemma map_fst_update (l : List (String × ObjectStore)) (n : String)
    (s1 : ObjectStore) :
    (l.map (fun p => if p.1 = n then (n, s1) else p)).map (fun x => x.1) =
      l.map (fun x => x.1) := by
  induction l with
  | nil => rfl
  | cons p t ih =>
    by_cases hp : p.1 = n
    · simp only [List.map_cons, if_pos hp, ih]
      rw [hp]
    · simp only [List.map_cons, if_neg hp, ih]

lemma find?_append_single (l : List (String × ObjectStore))
    (x : String × ObjectStore) (n : String)
    (h : l.find? (fun p => decide (p.1 = n)) = none) :
    (l ++ [x]).find? (fun p => decide (p.1 = n)) =
      if x.1 = n then some x else none := by
  induction l with
  | nil =>
    by_cases hx : x.1 = n
    · rw [List.nil_append, List.find?_cons_of_pos _ (by simpa using hx), if_pos hx]
    · rw [List.nil_append, List.find?_cons_of_neg _ (by simpa using hx), if_neg hx]
      rfl
  | cons p t ih =>
    by_cases hp : p.1 = n
    · rw [List.find?_cons_of_pos _ (by simpa using hp)] at h
      simp at h
    · rw [List.find?_cons_of_neg _ (by simpa using hp)] at h
      rw [List.cons_append, List.find?_cons_of_neg _ (by simpa using hp)]
      exact ih h

lemma dbHasStore_eq (db : IDB) (n : String) :
    dbHasStore db n = (dbLookup db n).isSome := by
  show db.stores.any _ = (Option.map _ (db.stores.find? _)).isSome
  rw [any_eq_find_isSome]
  cases db.stores.find? (fun p => decide (p.1 = n)) <;> rfl

lemma dbStoreNames_update (db : IDB) (n : String) (s : ObjectStore) :
    dbStoreNames (dbUpdate db n s) = dbStoreNames db := by
  show (db.stores.map _).map _ = db.stores.map _
  exact map_fst_update db.stores n s

lemma dbLookup_update_self (db : IDB) (n : String) (s1 : ObjectStore)
    (h : (dbLookup db n).isSome) :
    dbLookup (dbUpdate db n s1) n = some s1 := by
  have hdl : dbLookup db n =
      Option.map (fun x => x.2) (db.stores.find? (fun p => decide (p.1 = n))) := rfl
  have h2 : (db.stores.find? (fun p => decide (p.1 = n))).isSome := by
    rcases hf : db.stores.find? (fun p => decide (p.1 = n)) with _ | v
    · rw [hdl, hf] at h
      simp at h
    · rw [hf]
      rfl
  show Option.map _ ((db.stores.map _).find? _) = some s1
  rw [find?_map_update_self db.stores n s1 h2]
  rfl

lemma dbLookup_update_ne (db : IDB) (n m : String) (s1 : ObjectStore)
    (h : m ≠ n) :
    dbLookup (dbUpdate db n s1) m = dbLookup db m := by
  show Option.map _ ((db.stores.map _).find? _) = Option.map _ (db.stores.find? _)
  rw [find?_map_update_ne db.stores n m s1 h]

lemma dbLookup_create_self (db : IDB) (n : String) (s : ObjectStore)
    (h : dbLookup db n = none) :
    dbLookup (dbCreateStore db n s) n = some s := by
  have hdl : dbLookup db n =
      Option.map (fun x => x.2) (db.stores.find? (fun p => decide (p.1 = n))) := rfl
  have h2 : db.stores.find? (fun p => decide (p.1 = n)) = none := by
    rcases hf : db.stores.find? (fun p => decide (p.1 = n)) with _ | v
    · exact hf
    · rw [hdl, hf] at h
      simp at h
  show Option.map _ ((db.stores ++ [(n, s)]).find? _) = some s
  rw [find?_append_single db.stores (n, s) n h2]
  simp

lemma find?_append_some (l : List (String × ObjectStore))
    (x v : String × ObjectStore) (n : String)
    (h : l.find? (fun p => decide (p.1 = n)) = some v) :
    (l ++ [x]).find? (fun p => decide (p.1 = n)) = some v := by
  induction l with
  | nil => simp at h
  | cons p t ih =>
    by_cases hp : p.1 = n
    · rw [List.find?_cons_of_pos _ (by simpa using hp)] at h
      rw [List.cons_append, List.find?_cons_of_pos _ (by simpa using hp)]
      exact h
    · rw [List.find?_cons_of_neg _ (by simpa using hp)] at h
      rw [List.cons_append, List.find?_cons_of_neg _ (by simpa using hp)]
      exact ih h

lemma dbLookup_create_ne (db : IDB) (n m : String) (s : ObjectStore)
    (h : m ≠ n) :
    dbLookup (dbCreateStore db n s) m = dbLookup db m := by
  show Option.map _ ((db.stores ++ [(n, s)]).find? _) = Option.map _ (db.stores.find? _)
  rcases hf : db.stores.find? (fun p => decide (p.1 = m)) with _ | v
  · rw [find?_append_single db.stores (n, s) m hf]
    rw [if_neg (by simpa using (h.symm : ¬ n = m)), hf]
  · rw [find?_append_some db.stores (n, s) v m hf, hf]

lemma dbStoreNames_create (db : IDB) (n : String) (s : ObjectStore) :
    dbStoreNames (dbCreateStore db n s) = dbStoreNames db ++ [n] := by
  simp [dbStoreNames, dbCreateStore]

/-! ## Lemmas about population -/

lemma dbPutInto_ok_of (db : IDB) (n : String) (row : JSRecord)
    (s s1 : ObjectStore) (hl : dbLookup db n = some s)
    (hp : storePut s row = .ok s1) :
    dbPutInto db n row = .ok (dbUpdate db n s1) := by
  unfold dbPutInto
  rw [hl]
  show Except.map (fun s1 => dbUpdate db n s1) (storePut s row) = _
  rw [hp]
  rfl

/-- Putting a sheet's rows one by one through the transaction acts on the
named store exactly as putAll does, and touches nothing else. -/
lemma foldPut_ok (n : String) :
    ∀ (rows : List JSRecord) (db : IDB) (s s1 : ObjectStore),
      dbLookup db n = some s → putAll s rows = .ok s1 →
      ∃ db', rows.foldlM (fun a r => dbPutInto a n r) db = .ok db' ∧
        dbLookup db' n = some s1 ∧
        (∀ m, m ≠ n → dbLookup db' m = dbLookup db m) ∧
        dbStoreNames db' = dbStoreNames db := by
  intro rows
  induction rows with
  | nil =>
    intro db s s1 hl hp
    have hs : s = s1 := by simpa [putAll, pure, Except.pure] using hp
    exact ⟨db, rfl, hs ▸ hl, fun m _ => rfl, rfl⟩
  | cons r rs ih =>
    intro db s s1 hl hp
    cases hsp : storePut s r with
    | error e =>
      rw [putAll, List.foldlM_cons, hsp] at hp
      simp [Bind.bind, Except.bind] at hp
    | ok s2 =>
      have hp2 : putAll s2 rs = .ok s1 := by
        rw [putAll, List.foldlM_cons, hsp] at hp
        simpa [putAll, Bind.bind, Except.bind] using hp
      have hput := dbPutInto_ok_of db n r s s2 hl hsp
      have hl2 : dbLookup (dbUpdate db n s2) n = some s2 :=
        dbLookup_update_self db n s2 (by simp [hl])
      obtain ⟨db', h1, h2, h3, h4⟩ := ih (dbUpdate db n s2) s2 s1 hl2 hp2
      refine ⟨db', ?_, h2, ?_, ?_⟩
      · rw [List.foldlM_cons, hput]
        simpa [Bind.bind, Except.bind] using h1
      · intro m hm
        rw [h3 m hm, dbLookup_update_ne db n m s2 hm]
      · rw [h4, dbStoreNames_update]

/-- When some put of the loop fails, the whole transaction fails with
that error. -/
lemma foldPut_err (n : String) :
    ∀ (rows : List JSRecord) (db : IDB) (s : ObjectStore) (e : DBErr),
      dbLookup db n = some s → putAll s rows = .error e →
      rows.foldlM (fun a r => dbPutInto a n r) db = .error e := by
  intro rows
  induction rows with
  | nil =>
    intro db s e hl hp
    simp [putAll, pure, Except.pure] at hp
  | cons r rs ih =>
    intro db s e hl hp
    cases hsp : storePut s r with
    | error e2 =>
      rw [putAll, List.foldlM_cons, hsp] at hp
      have he : e2 = e := by simpa [Bind.bind, Except.bind] using hp
      have hput : dbPutInto db n r = .error e2 := by
        unfold dbPutInto
        rw [hl]
        show Except.map (fun s1 => dbUpdate db n s1) (storePut s r) = _
        rw [hsp]
        rfl
      rw [List.foldlM_cons, hput, he]
      simp [Bind.bind, Except.bind]
    | ok s2 =>
      have hp2 : putAll s2 rs = .error e := by
        rw [putAll, List.foldlM_cons, hsp] at hp
        simpa [putAll, Bind.bind, Except.bind] using hp
      have hput := dbPutInto_ok_of db n r s s2 hl hsp
      have hl2 := dbLookup_update_self db n s2 (by simp [hl])
      rw [List.foldlM_cons, hput]
      simpa [Bind.bind, Except.bind] using ih (dbUpdate db n s2) s2 e hl2 hp2

/-- One iteration of the upgrade loop on a sheet whose store does not yet
exist: the store is created and filled with exactly the sheet's rows;
every other name is untouched. -/
lemma populateSheet_ok (cfg : Config) (d : RawData) (n : String)
    (db db' : IDB) (hnone : dbLookup db n = none)
    (h : populateSheet cfg d db n = .ok db') :
    ∃ s1, putAll (mkStore cfg.keyId true) (sheetRows d n) = .ok s1 ∧
      dbLookup db' n = some s1 ∧
      (∀ m, m ≠ n → dbLookup db' m = dbLookup db m) ∧
      dbStoreNames db' = dbStoreNames db ++ [n] := by
  have hhas : dbHasStore db n = false := by
    rw [dbHasStore_eq, hnone]
    rfl
  unfold populateSheet at h
  rw [hhas] at h
  simp only [Bool.false_eq_true, if_false] at h
  have hl1 : dbLookup (dbCreateStore db n (mkStore cfg.keyId true)) n =
      some (mkStore cfg.keyId true) := dbLookup_create_self db n _ hnone
  cases hput : putAll (mkStore cfg.keyId true) (sheetRows d n) with
  | error e =>
    exfalso
    have hfe := foldPut_err n (sheetRows d n)
      (dbCreateStore db n (mkStore cfg.keyId true)) (mkStore cfg.keyId true) e
      hl1 hput
    rw [hfe] at h
    cases h
  | ok s1 =>
    obtain ⟨db2, h1, h2, h3, h4⟩ :=
      foldPut_ok n (sheetRows d n) (dbCreateStore db n (mkStore cfg.keyId true))
        (mkStore cfg.keyId true) s1 hl1 hput
    rw [h1] at h
    cases h
    refine ⟨s1, rfl, h2, ?_, ?_⟩
    · intro m hm
      rw [h3 m hm, dbLookup_create_ne db n m _ hm]
    · rw [h4, dbStoreNames_create]

/-- The upgrade loop over a list of fresh sheet names creates exactly
those stores, fills each from its sheet, and touches nothing else. -/
lemma populateFold_ok (cfg : Config) (d : RawData) :
    ∀ (names : List String) (db db' : IDB),
      names.Nodup →
      (∀ n ∈ names, dbLookup db n = none) →
      names.foldlM (populateSheet cfg d) db = .ok db' →
      dbStoreNames db' = dbStoreNames db ++ names ∧
      (∀ n ∈ names, ∃ s1,
        putAll (mkStore cfg.keyId true) (sheetRows d n) = .ok s1 ∧
        dbLookup db' n = some s1) ∧
      (∀ m, m ∉ names → dbLookup db' m = dbLookup db m) := by
  intro names
  induction names with
  | nil =>
    intro db db' _ _ h
    have hdb : db = db' := by simpa [pure, Except.pure] using h
    subst hdb
    exact ⟨by simp, by simp, fun m _ => rfl⟩
  | cons n ns ih =>
    intro db db' hnd hnone h
    rw [List.foldlM_cons] at h
    cases hsheet : populateSheet cfg d db n with
    | error e =>
      rw [hsheet] at h
      simp [Bind.bind, Except.bind] at h
    | ok db1 =>
      rw [hsheet] at h
      have h2 : ns.foldlM (populateSheet cfg d) db1 = .ok db' := by
        simpa [Bind.bind, Except.bind] using h
      obtain ⟨s1, hput, hl1, hothers, hnames⟩ :=
        populateSheet_ok cfg d n db db1 (hnone n (List.mem_cons_self n ns)) hsheet
      have hnd2 : ns.Nodup := (List.nodup_cons.mp hnd).2
      have hnn : n ∉ ns := (List.nodup_cons.mp hnd).1
      have hnone2 : ∀ m ∈ ns, dbLookup db1 m = none := by
        intro m hm
        have hmn : m ≠ n := fun he => hnn (he ▸ hm)
        rw [hothers m hmn]
        exact hnone m (List.mem_cons_of_mem n hm)
      obtain ⟨i1, i2, i3⟩ := ih db1 db' hnd2 hnone2 h2
      refine ⟨?_, ?_, ?_⟩
      · rw [i1, hnames, List.append_assoc, List.singleton_append]
      · intro m hm
        rcases List.mem_cons.mp hm with h3 | h3
        · subst h3
          refine ⟨s1, hput, ?_⟩
          rw [i3 m hnn, hl1]
        · exact i2 m h3
      · intro m hm
        have hm1 : m ∉ ns := fun hx => hm (List.mem_cons_of_mem n hx)
        have hm2 : m ≠ n := fun he => hm (he ▸ List.mem_cons_self n ns)
        rw [i3 m hm1, hothers m hm2]

/-- The full upgrade handler, when the open request succeeds: the
committed database holds one store per sheet, filled from that sheet,
plus the meta store holding exactly the meta record. -/
lemma populateUpgrade_ok (cfg : Config) (d : RawData) (db : IDB)
    (hnd : (sheetNames d).Nodup) (hmeta : cfg.metaStore ∉ sheetNames d)
    (h : populateUpgrade cfg d = .ok db) :
    dbStoreNames db = sheetNames d ++ [cfg.metaStore] ∧
    (∀ n ∈ sheetNames d, ∃ s1,
      putAll (mkStore cfg.keyId true) (sheetRows d n) = .ok s1 ∧
      dbLookup db n = some s1) ∧
    dbMetaGet cfg db = some (metaRecOf cfg d) := by
  unfold populateUpgrade at h
  cases hfold : (sheetNames d).foldlM (populateSheet cfg d) emptyIDB with
  | error e =>
    rw [hfold] at h
    simp [Bind.bind, Except.bind] at h
  | ok db0 =>
    rw [hfold] at h
    obtain ⟨f1, f2, f3⟩ := populateFold_ok cfg d (sheetNames d) emptyIDB db0 hnd
      (fun n _ => rfl) hfold
    have hm0 : dbLookup db0 cfg.metaStore = none := by
      rw [f3 cfg.metaStore hmeta]
      rfl
    have hhas : dbHasStore db0 cfg.metaStore = false := by
      rw [dbHasStore_eq, hm0]
      rfl
    have h1 : dbPutInto (dbCreateStore db0 cfg.metaStore (mkStore cfg.keyId false))
        cfg.metaStore (metaRecOf cfg d) = .ok db := by
      rw [← h]
      simp [Bind.bind, Except.bind, hhas]
    have hl1 : dbLookup (dbCreateStore db0 cfg.metaStore (mkStore cfg.keyId false))
        cfg.metaStore = some (mkStore cfg.keyId false) :=
      dbLookup_create_self db0 _ _ hm0
    have hrec : recGet (metaRecOf cfg d) cfg.keyId = some (.str cfg.metaRecordId) := by
      unfold metaRecOf
      exact recGet_recSet_self _ _ _
    have hsp : storePut (mkStore cfg.keyId false) (metaRecOf cfg d) =
        .ok ⟨cfg.keyId, false, [(.str cfg.metaRecordId, metaRecOf cfg d)], 1⟩ := by
      unfold storePut
      simp only [mkStore]
      rw [hrec]
      rfl
    have hput := dbPutInto_ok_of _ cfg.metaStore (metaRecOf cfg d) _ _ hl1 hsp
    rw [hput] at h1
    cases h1
    have hnames0 : dbStoreNames db0 = sheetNames d := by
      rw [f1]
      rfl
    refine ⟨?_, ?_, ?_⟩
    · rw [dbStoreNames_update, dbStoreNames_create, hnames0]
    · intro n hn
      obtain ⟨s1, hput1, hl1n⟩ := f2 n hn
      have hne : n ≠ cfg.metaStore := fun he => hmeta (he ▸ hn)
      refine ⟨s1, hput1, ?_⟩
      rw [dbLookup_update_ne _ _ _ _ hne, dbLookup_create_ne _ _ _ _ hne, hl1n]
    · unfold dbMetaGet
      rw [dbLookup_update_self _ _ _ (by rw [hl1]; rfl)]
      show storeGet ⟨cfg.keyId, false, [(.str cfg.metaRecordId, metaRecOf cfg d)], 1⟩
        (.str cfg.metaRecordId) = some (metaRecOf cfg d)
      unfold storeGet
      rw [List.find?_cons_of_pos _ (by simp)]
      rfl

/-! ## Claim C1 -/

/-- C1: for a collection store holding N distinct keys that does not
change during the run, N consecutive sampler calls (the key-selection
step of getFromStore) all resolve with keys drawn from the store,
pairwise distinct — each picked key is added to the per-store used set
and excluded from later picks; afterwards the used set holds all N keys,
and the (N+1)-th call finds it full, clears it, and returns the key at
the freshly drawn index — any key, including the first, depending on the
draw — leaving exactly that one key in the used set. -/
theorem claim_c1 (keys : List JSKey) (rands : List Nat)
    (hk : keys ≠ []) (hnd : keys.Nodup) (hlen : rands.length = keys.length) :
    ∃ picked : List JSKey,
      (runSampler keys rands []).1 = picked.map some ∧
      picked.Nodup ∧
      picked.length = keys.length ∧
      (∀ x ∈ picked, x ∈ keys) ∧
      (runSampler keys rands []).2.length = keys.length ∧
      ∀ r : Nat, ∃ k, keys.get? (r % keys.length) = some k ∧
        pickRandomKey keys (runSampler keys rands []).2 r = (some k, [k]) := by
  obtain ⟨picked, h1, h2, h3, h4, h5⟩ :=
    runSampler_spec keys hk hnd rands [] List.nodup_nil (by simp [hlen])
  have hpnd : picked.Nodup := by simpa using h4
  have hlen2 : (runSampler keys rands []).2.length = keys.length := by
    rw [h2]
    simp [h3, hlen]
  refine ⟨picked, h1, hpnd, by rw [h3, hlen], h5, hlen2, ?_⟩
  intro r
  exact pickRandomKey_full keys _ r hk (le_of_eq hlen2.symm)

/-- Witness for C1 at a concrete two-key store and two draws. -/
theorem claim_c1_witness :
    ([JSKey.num 1, JSKey.num 2] ≠ [] ∧ [JSKey.num 1, JSKey.num 2].Nodup ∧
      [0, 0].length = [JSKey.num 1, JSKey.num 2].length) ∧
    ∃ picked : List JSKey,
      (runSampler [JSKey.num 1, JSKey.num 2] [0, 0] []).1 = picked.map some ∧
      picked.Nodup ∧
      picked.length = [JSKey.num 1, JSKey.num 2].length ∧
      (∀ x ∈ picked, x ∈ [JSKey.num 1, JSKey.num 2]) ∧
      (runSampler [JSKey.num 1, JSKey.num 2] [0, 0] []).2.length =
        [JSKey.num 1, JSKey.num 2].length ∧
      ∀ r : Nat, ∃ k,
        [JSKey.num 1, JSKey.num 2].get? (r % [JSKey.num 1, JSKey.num 2].length) = some k ∧
        pickRandomKey [JSKey.num 1, JSKey.num 2]
          (runSampler [JSKey.num 1, JSKey.num 2] [0, 0] []).2 r = (some k, [k]) :=
  ⟨⟨by decide, by decide, by decide⟩,
    claim_c1 [JSKey.num 1, JSKey.num 2] [0, 0] (by decide) (by decide) (by decide)⟩

/-! ## Claim C2 -/

/-- C2: initAndCacheData decides between reuse and repopulate exactly by
the spec's rule — the code's decision chain computes true precisely on
the spec's repopulation cases (including every probe error), and whenever
it computes false the run reuses the existing database unchanged and
resolves with the fetched dataset. -/
theorem claim_c2 (cfg : Config) (pr : ProbeResult) (fetched : Option JSValue)
    (world : Option IDB) (d : RawData) :
    (needPopulate cfg pr fetched = true ↔ reconcileRuleSpec cfg pr fetched) ∧
    (needPopulate cfg (probeOf cfg world) (dataVersion d) = false →
      initRun cfg world d = (.ok d, world)) := by
  constructor
  · cases pr with
    | openFailed => simp [needPopulate, reconcileRuleSpec]
    | opened db mr =>
      simp only [needPopulate, reconcileRuleSpec]
      by_cases h1 : db.stores.length = 0
      · simp [h1]
      · by_cases h2 : dbHasStore db cfg.metaStore
        · cases mr with
          | error e => cases e; simp [h1, h2]
          | ok om =>
            cases om with
            | none => simp [h1, h2]
            | some m => simp [h1, h2]
        · simp [h1, h2]
  · intro h
    simp [initRun, h]

/-- Witness for C2: with the sample database installed and an unchanged
version, the decision is reuse and the run leaves the world untouched. -/
theorem claim_c2_witness :
    needPopulate cfg0 (probeOf cfg0 (some sampleDB)) (dataVersion sampleData) = false ∧
    initRun cfg0 (some sampleDB) sampleData = (.ok sampleData, some sampleDB) :=
  ⟨by decide,
    (claim_c2 cfg0 (probeOf cfg0 (some sampleDB)) (dataVersion sampleData)
      (some sampleDB) sampleData).2 (by decide)⟩

/-! ## Claim C3 -/

lemma initCall_memo (env : InitEnv) (s : Session) (p : Nat)
    (h : s.initP = some p) : initCall env s = (p, s) := by
  simp [initCall, h]

lemma runInits_memo (es : List InitEnv) (s : Session) (p : Nat)
    (h : s.initP = some p) :
    runInits es s = (List.replicate es.length p, s) := by
  induction es with
  | nil => rfl
  | cons e es ih =>
    show ((initCall e s).1 :: (runInits es (initCall e s).2).1,
        (runInits es (initCall e s).2).2) = _
    rw [initCall_memo e s p h]
    rw [ih]
    simp [List.replicate]

lemma initCall_fresh (env : InitEnv) :
    (initCall env freshSession).1 = 0 ∧
    (initCall env freshSession).2.initP = some 0 ∧
    (initCall env freshSession).2.fetches = 1 ∧
    (initCall env freshSession).2.populates ≤ 1 := by
  cases env with
  | fetchFail => decide
  | run o np pf => cases o <;> cases np <;> cases pf <;> decide

/-- C3: within one process, every initAndCacheData call after (or
concurrent with) the first receives the identical promise — hence the
identical settled dataset value — because the memo is assigned
synchronously before the first suspension point; over any sequence of
calls exactly one network fetch is issued and at most one wipe/populate
cycle is performed. -/
theorem claim_c3 (envs : List InitEnv) (h : envs ≠ []) :
    (∀ r ∈ (runInits envs freshSession).1, r = 0) ∧
    (runInits envs freshSession).1.length = envs.length ∧
    (runInits envs freshSession).2.fetches = 1 ∧
    (runInits envs freshSession).2.populates ≤ 1 ∧
    (runInits envs freshSession).2.initP = some 0 := by
  cases envs with
  | nil => exact absurd rfl h
  | cons e es =>
    obtain ⟨hr, hip, hf, hp⟩ := initCall_fresh e
    have hrun : runInits (e :: es) freshSession =
        ((initCall e freshSession).1 :: (runInits es (initCall e freshSession).2).1,
         (runInits es (initCall e freshSession).2).2) := rfl
    rw [runInits_memo es (initCall e freshSession).2 0 hip] at hrun
    rw [hrun]
    refine ⟨?_, by simp, hf, hp, hip⟩
    intro r hrr
    rcases List.mem_cons.mp hrr with h1 | h1
    · rw [h1, hr]
    · exact List.eq_of_mem_replicate h1

/-- Witness for C3 on a concrete call sequence: a repopulating first call
followed by a call whose fetch would fail — the second caller still gets
the first promise and no second fetch or populate happens. -/
theorem claim_c3_witness :
    ([InitEnv.run false true false, InitEnv.fetchFail] ≠ [] ∧ True) ∧
    ((∀ r ∈ (runInits [InitEnv.run false true false, InitEnv.fetchFail]
        freshSession).1, r = 0) ∧
      (runInits [InitEnv.run false true false, InitEnv.fetchFail]
        freshSession).1.length =
        [InitEnv.run false true false, InitEnv.fetchFail].length ∧
      (runInits [InitEnv.run false true false, InitEnv.fetchFail]
        freshSession).2.fetches = 1 ∧
      (runInits [InitEnv.run false true false, InitEnv.fetchFail]
        freshSession).2.populates ≤ 1 ∧
      (runInits [InitEnv.run false true false, InitEnv.fetchFail]
        freshSession).2.initP = some 0) :=
  ⟨⟨by decide, trivial⟩,
    claim_c3 [InitEnv.run false true false, InitEnv.fetchFail] (by decide)⟩

/-! ## Claim C9 -/

/-- C9 as stated is refuted on the database-handle memo: after openDB
memoizes the first database promise, a later initAndCacheData run clears
it (before deleteDatabase) and leaves a different promise object
memoized, so a later caller does not observe the originally assigned
promise. -/
theorem claim_c9_counterexample :
    (openDBCall freshSession).2.dbP = some 0 ∧
    (initCall (.run false true false) (openDBCall freshSession).2).2.dbP = some 3 ∧
    (3 : Nat) ≠ 0 := by
  decide

/-- C9 amended: only the initialization memo is forward-only — once
_initPromise is assigned, no operation (openDB in either outcome, or any
initAndCacheData call) ever clears or replaces it; the database-handle
memo enjoys no such property, as openDB's error handler clears it and
every initialization run replaces it. -/
theorem claim_c9_amended (op : SessionOp) (s : Session) (p : Nat)
    (h : s.initP = some p) : (applyOp op s).initP = some p := by
  cases op with
  | openOk =>
    show (openDBCall s).2.initP = some p
    unfold openDBCall
    cases s.dbP <;> simp [h]
  | openFail =>
    show (openDBFailCall s).initP = some p
    unfold openDBFailCall
    cases s.dbP <;> simp [h]
  | init env =>
    show (initCall env s).2.initP = some p
    rw [initCall_memo env s p h]
    exact h

/-- Witness for the amended C9 at a concrete state and operation. -/
theorem claim_c9_amended_witness :
    (Session.mk (some 5) (some 2) 6 1 1).initP = some 5 ∧
    (applyOp (.init .fetchFail) (Session.mk (some 5) (some 2) 6 1 1)).initP = some 5 :=
  ⟨by decide,
    claim_c9_amended (.init .fetchFail) (Session.mk (some 5) (some 2) 6 1 1) 5 (by decide)⟩

/-! ## Claims C4 and C5 -/

/-- The meta record carries exactly the fetched dataset's version
(whenever the key field is not itself named "version"). -/
lemma metaRec_version (cfg : Config) (d : RawData) (hki : cfg.keyId ≠ "version") :
    recGet (metaRecOf cfg d) "version" = dataVersion d := by
  unfold metaRecOf
  cases hv : dataVersion d with
  | none =>
    rw [recGet_recSet_ne _ _ _ _ (Ne.symm hki)]
    rfl
  | some v =>
    rw [recGet_recSet_ne _ _ _ _ (Ne.symm hki)]
    unfold recGet
    rw [List.find?_cons_of_pos _ (by simp)]
    rfl

/-- Whatever else the installed database looks like, a stored meta
version different from the fetched one makes the decision repopulate. -/
lemma needPopulate_of_version_ne (cfg : Config) (db1 : IDB)
    (fetched : Option JSValue) (hne : dbMetaVersion cfg db1 ≠ fetched) :
    needPopulate cfg (probeOf cfg (some db1)) fetched = true := by
  unfold needPopulate probeOf
  by_cases h1 : db1.stores.length = 0
  · simp [h1]
  · by_cases h2 : dbHasStore db1 cfg.metaStore
    · cases hm : dbMetaGet cfg db1 with
      | none => simp [h1, h2, hm]
      | some m =>
        have hver : recGet m "version" ≠ fetched := by
          unfold dbMetaVersion at hne
          rw [hm] at hne
          simpa using hne
        simp [h1, h2, hm, hver]
    · simp [h1, h2]

/-- C5: population is atomic and complete — a committed upgrade holds one
object store per top-level key of the dataset except the reserved key
"version" (plus the meta store), every collection store is exactly the
result of writing its sheet's records into a fresh store, and the meta
record carries the dataset's version; all writes share the single upgrade
transaction of one open request, so if any of them fails the open request
fails and the repopulating run leaves no database behind — none of the
new stores exists. -/
theorem claim_c5 (cfg : Config) (d : RawData) (world : Option IDB)
    (hnd : (sheetNames d).Nodup) (hmeta : cfg.metaStore ∉ sheetNames d)
    (hki : cfg.keyId ≠ "version") :
    (∀ db, populateUpgrade cfg d = .ok db →
      dbStoreNames db = sheetNames d ++ [cfg.metaStore] ∧
      (∀ n ∈ sheetNames d, ∃ s1,
        putAll (mkStore cfg.keyId true) (sheetRows d n) = .ok s1 ∧
        dbLookup db n = some s1) ∧
      dbMetaGet cfg db = some (metaRecOf cfg d) ∧
      dbMetaVersion cfg db = dataVersion d) ∧
    (∀ e, needPopulate cfg (probeOf cfg world) (dataVersion d) = true →
      populateUpgrade cfg d = .error e → (initRun cfg world d).2 = none) := by
  constructor
  · intro db h
    obtain ⟨g1, g2, g3⟩ := populateUpgrade_ok cfg d db hnd hmeta h
    refine ⟨g1, g2, g3, ?_⟩
    unfold dbMetaVersion
    rw [g3]
    show recGet (metaRecOf cfg d) "version" = dataVersion d
    exact metaRec_version cfg d hki
  · intro e hnp hpe
    simp [initRun, hnp, hpe]

/-- Witness for C5 on the sample dataset. -/
theorem claim_c5_witness :
    ((sheetNames sampleData).Nodup ∧ cfg0.metaStore ∉ sheetNames sampleData ∧
      cfg0.keyId ≠ "version") ∧
    ((∀ db, populateUpgrade cfg0 sampleData = .ok db →
      dbStoreNames db = sheetNames sampleData ++ [cfg0.metaStore] ∧
      (∀ n ∈ sheetNames sampleData, ∃ s1,
        putAll (mkStore cfg0.keyId true) (sheetRows sampleData n) = .ok s1 ∧
        dbLookup db n = some s1) ∧
      dbMetaGet cfg0 db = some (metaRecOf cfg0 sampleData) ∧
      dbMetaVersion cfg0 db = dataVersion sampleData) ∧
    (∀ e, needPopulate cfg0 (probeOf cfg0 none) (dataVersion sampleData) = true →
      populateUpgrade cfg0 sampleData = .error e →
      (initRun cfg0 none sampleData).2 = none)) :=
  ⟨⟨by decide, by decide, by decide⟩,
    claim_c5 cfg0 sampleData none (by decide) (by decide) (by decide)⟩

/-- C4: when a first initialization installed a dataset with version v1
and a later initialization run fetches a dataset whose version v2
differs, that run takes the repopulate path: the resulting database is
exactly the fresh population of the second dataset — every collection
store is rebuilt from the second dataset alone — and the stored meta
version equals v2. -/
theorem claim_c4 (cfg : Config) (d1 d2 : RawData) (db1 db2 : IDB)
    (v1 v2 : String)
    (hpop1 : populateUpgrade cfg d1 = .ok db1)
    (hv1 : dataVersion d1 = some (.str v1))
    (hnd1 : (sheetNames d1).Nodup) (hm1 : cfg.metaStore ∉ sheetNames d1)
    (hki : cfg.keyId ≠ "version")
    (hv2 : dataVersion d2 = some (.str v2)) (hne : v1 ≠ v2)
    (hpop2 : populateUpgrade cfg d2 = .ok db2)
    (hnd2 : (sheetNames d2).Nodup) (hm2 : cfg.metaStore ∉ sheetNames d2) :
    initRun cfg (some db1) d2 = (.ok d2, some db2) ∧
    dbStoreNames db2 = sheetNames d2 ++ [cfg.metaStore] ∧
    (∀ n ∈ sheetNames d2, ∃ s1,
      putAll (mkStore cfg.keyId true) (sheetRows d2 n) = .ok s1 ∧
      dbLookup db2 n = some s1) ∧
    dbMetaVersion cfg db2 = some (.str v2) := by
  obtain ⟨g1, g2, g3⟩ := populateUpgrade_ok cfg d1 db1 hnd1 hm1 hpop1
  have hmv1 : dbMetaVersion cfg db1 = some (.str v1) := by
    unfold dbMetaVersion
    rw [g3]
    show recGet (metaRecOf cfg d1) "version" = _
    rw [metaRec_version cfg d1 hki, hv1]
  have hne2 : dbMetaVersion cfg db1 ≠ dataVersion d2 := by
    rw [hmv1, hv2]
    simp [hne]
  have hnp := needPopulate_of_version_ne cfg db1 (dataVersion d2) hne2
  obtain ⟨k1, k2, k3⟩ := populateUpgrade_ok cfg d2 db2 hnd2 hm2 hpop2
  have hmv2 : dbMetaVersion cfg db2 = some (.str v2) := by
    unfold dbMetaVersion
    rw [k3]
    show recGet (metaRecOf cfg d2) "version" = _
    rw [metaRec_version cfg d2 hki, hv2]
  refine ⟨?_, k1, k2, hmv2⟩
  simp [initRun, hnp, hpop2]

/-- Witness for C4 on the two sample datasets (versions t1 then t2). -/
theorem claim_c4_witness :
    (populateUpgrade cfg0 sampleData = .ok sampleDB ∧
      dataVersion sampleData = some (.str "t1") ∧
      dataVersion sampleData2 = some (.str "t2") ∧ "t1" ≠ "t2" ∧
      populateUpgrade cfg0 sampleData2 = .ok sampleDB2) ∧
    (initRun cfg0 (some sampleDB) sampleData2 = (.ok sampleData2, some sampleDB2) ∧
      dbStoreNames sampleDB2 = sheetNames sampleData2 ++ [cfg0.metaStore] ∧
      (∀ n ∈ sheetNames sampleData2, ∃ s1,
        putAll (mkStore cfg0.keyId true) (sheetRows sampleData2 n) = .ok s1 ∧
        dbLookup sampleDB2 n = some s1) ∧
      dbMetaVersion cfg0 sampleDB2 = some (.str "t2")) :=
  ⟨⟨by decide, by decide, by decide, by decide, by decide⟩,
    claim_c4 cfg0 sampleData sampleData2 sampleDB sampleDB2 "t1" "t2"
      (by decide) (by decide) (by decide) (by decide) (by decide) (by decide)
      (by decide) (by decide) (by decide) (by decide)⟩

/-! ## Claim C6 -/

lemma JSKey.lt_asymm (a b : JSKey) (h : JSKey.lt a b = true) :
    JSKey.lt b a = false := by
  cases a <;> cases b <;> simp [JSKey.lt] at h ⊢
  · omega
  · exact le_of_lt h

lemma JSKey.ne_of_lt (a b : JSKey) (h : JSKey.lt a b = true) : a ≠ b := by
  cases a with
  | num x =>
    cases b with
    | num y =>
      simp [JSKey.lt] at h ⊢
      omega
    | str y => simp
  | str x =>
    cases b with
    | num y => simp [JSKey.lt] at h
    | str y =>
      simp only [JSKey.lt, decide_eq_true_eq] at h
      simp only [ne_eq, JSKey.str.injEq]
      intro he
      rw [he] at h
      exact absurd h (lt_irrefl y)

/-- Inserting a key greater than every present key appends at the end. -/
lemma insertSorted_append (k : JSKey) (v : JSRecord)
    (l : List (JSKey × JSRecord))
    (h : ∀ p ∈ l, JSKey.lt p.1 k = true) :
    insertSorted k v l = l ++ [(k, v)] := by
  induction l with
  | nil => rfl
  | cons p t ih =>
    have hp := h p (List.mem_cons_self p t)
    have hne : ¬ (k = p.1) := fun he => (JSKey.ne_of_lt p.1 k hp) he.symm
    have hlt : JSKey.lt k p.1 = false := JSKey.lt_asymm p.1 k hp
    unfold insertSorted
    rw [if_neg hne, hlt]
    simp only [Bool.false_eq_true, if_false]
    rw [ih (fun q hq => h q (List.mem_cons_of_mem p hq))]
    rfl

/-- Putting id-less rows into an auto-increment store whose keys all lie
below the generator appends exactly the generated records. -/
lemma putAll_noid (keyId : String) :
    ∀ (rows : List JSRecord) (recs : List (JSKey × JSRecord)) (g : Int),
      (∀ r ∈ rows, recGet r keyId = none) →
      (∀ p ∈ recs, JSKey.lt p.1 (.num g) = true) →
      putAll ⟨keyId, true, recs, g⟩ rows =
        .ok ⟨keyId, true, recs ++ genRecords keyId g rows, g + rows.length⟩ := by
  intro rows
  induction rows with
  | nil =>
    intro recs g _ _
    simp [putAll, genRecords, pure, Except.pure]
  | cons r rs ih =>
    intro recs g hno hlt
    have hr : recGet r keyId = none := hno r (List.mem_cons_self r rs)
    have hsp : storePut ⟨keyId, true, recs, g⟩ r =
        .ok ⟨keyId, true, recs ++ [(.num g, recSet r keyId (.num g))], g + 1⟩ := by
      unfold storePut
      simp only [hr]
      rw [insertSorted_append _ _ recs hlt]
      simp
    have hlt2 : ∀ p ∈ recs ++ [(JSKey.num g, recSet r keyId (.num g))],
        JSKey.lt p.1 (.num (g + 1)) = true := by
      intro p hp
      rcases List.mem_append.mp hp with h1 | h1
      · have hq := hlt p h1
        cases hk : p.1 with
        | num a =>
          rw [hk] at hq
          simp [JSKey.lt] at hq ⊢
          omega
        | str a =>
          rw [hk] at hq
          simp [JSKey.lt] at hq
      · have hpe : p = (JSKey.num g, recSet r keyId (.num g)) := by simpa using h1
        rw [hpe]
        simp [JSKey.lt]
    have hno2 : ∀ x ∈ rs, recGet x keyId = none :=
      fun x hx => hno x (List.mem_cons_of_mem r hx)
    have hrest := ih (recs ++ [(.num g, recSet r keyId (.num g))]) (g + 1) hno2 hlt2
    rw [putAll, List.foldlM_cons, hsp]
    show rs.foldlM storePut
        ⟨keyId, true, recs ++ [(.num g, recSet r keyId (.num g))], g + 1⟩ = _
    rw [putAll] at hrest
    rw [hrest]
    have hrec : recs ++ [(JSKey.num g, recSet r keyId (JSValue.num g))] ++
        genRecords keyId (g + 1) rs = recs ++ genRecords keyId g (r :: rs) := by
      rw [List.append_assoc]
      rfl
    have hgen : g + 1 + (rs.length : Int) = g + ((r :: rs).length : Int) := by
      rw [List.length_cons]
      push_cast
      omega
    rw [hrec, hgen]

/-- Looking a generated key up in the generated records returns the
matching injected row. -/
lemma genRecords_find (keyId : String) :
    ∀ (rows : List JSRecord) (g : Int) (i : Nat) (hi : i < rows.length),
      (genRecords keyId g rows).find?
          (fun p => decide (p.1 = JSKey.num (g + i))) =
        some (.num (g + i), recSet (rows.get ⟨i, hi⟩) keyId (.num (g + i))) := by
  intro rows
  induction rows with
  | nil =>
    intro g i hi
    simp at hi
  | cons r rs ih =>
    intro g i hi
    cases i with
    | zero =>
      unfold genRecords
      rw [List.find?_cons_of_pos _ (by simp)]
      simp
    | succ j =>
      unfold genRecords
      rw [List.find?_cons_of_neg _ (by simp; omega)]
      have hj : j < rs.length := Nat.lt_of_succ_lt_succ (by simpa using hi)
      have hkey : g + ((j + 1 : Nat) : Int) = g + 1 + (j : Int) := by
        push_cast
        omega
      rw [hkey]
      exact ih (g + 1) j hj

/-- C6 as stated is refuted by the auto-increment key injection: after
populating sampleData, the store holds the record under the generated key
1 with an extra "id" field injected by the key generator, so the value
read back is not field-for-field equal to the source record — which
itself is stored nowhere verbatim. -/
theorem claim_c6_counterexample :
    (populateUpgrade cfg0 sampleData).toOption.map
        (fun db => (dbLookup db "0").map ObjectStore.records) =
      some (some [(JSKey.num 1, [("text", JSValue.str "a"), ("id", JSValue.num 1)])]) ∧
    sheetRows sampleData "0" = [sampleRow] ∧
    [("text", JSValue.str "a"), ("id", JSValue.num 1)] ≠ sampleRow := by
  decide

/-- C6 amended: for every collection of the dataset whose records carry
no key field (the converter's output shape), the i-th record is stored
under the auto-generated key i+1, and reading that key back returns the
source record extended with exactly the generated key under the key
field: every source field reads back unchanged, and the injected key
field is the only addition — so strict field-for-field equality fails
precisely on that injected field. -/
theorem claim_c6_amended (cfg : Config) (d : RawData) (db : IDB) (n : String)
    (hnd : (sheetNames d).Nodup) (hmeta : cfg.metaStore ∉ sheetNames d)
    (hpop : populateUpgrade cfg d = .ok db)
    (hn : n ∈ sheetNames d)
    (hnoid : ∀ row ∈ sheetRows d n, recGet row cfg.keyId = none) :
    ∃ s, dbLookup db n = some s ∧
      ∀ i (hi : i < (sheetRows d n).length),
        storeGet s (.num (1 + i)) =
          some (recSet ((sheetRows d n).get ⟨i, hi⟩) cfg.keyId (.num (1 + i))) ∧
        (∀ f, f ≠ cfg.keyId →
          recGet (recSet ((sheetRows d n).get ⟨i, hi⟩) cfg.keyId (.num (1 + i))) f =
            recGet ((sheetRows d n).get ⟨i, hi⟩) f) ∧
        recGet (recSet ((sheetRows d n).get ⟨i, hi⟩) cfg.keyId (.num (1 + i)))
          cfg.keyId = some (.num (1 + i)) := by
  obtain ⟨g1, g2, g3⟩ := populateUpgrade_ok cfg d db hnd hmeta hpop
  obtain ⟨s1, hput, hl⟩ := g2 n hn
  have hall := putAll_noid cfg.keyId (sheetRows d n) [] 1 hnoid (by simp)
  have hs1 : s1 = ⟨cfg.keyId, true, genRecords cfg.keyId 1 (sheetRows d n),
      1 + (sheetRows d n).length⟩ := by
    rw [show (mkStore cfg.keyId true) = ⟨cfg.keyId, true, [], 1⟩ from rfl] at hput
    rw [hall] at hput
    simpa using hput.symm
  refine ⟨s1, hl, ?_⟩
  intro i hi
  refine ⟨?_, ?_, recGet_recSet_self _ _ _⟩
  · rw [hs1]
    show ((genRecords cfg.keyId 1 (sheetRows d n)).find?
        (fun p => decide (p.1 = JSKey.num (1 + i)))).map (fun x => x.2) = _
    rw [genRecords_find cfg.keyId (sheetRows d n) 1 i hi]
    rfl
  · intro f hf
    exact recGet_recSet_ne _ _ _ _ hf

/-- Witness for the amended C6 on the sample dataset. -/
theorem claim_c6_amended_witness :
    ((sheetNames sampleData).Nodup ∧ cfg0.metaStore ∉ sheetNames sampleData ∧
      populateUpgrade cfg0 sampleData = .ok sampleDB ∧
      "0" ∈ sheetNames sampleData ∧
      (∀ row ∈ sheetRows sampleData "0", recGet row cfg0.keyId = none)) ∧
    (∃ s, dbLookup sampleDB "0" = some s ∧
      ∀ i (hi : i < (sheetRows sampleData "0").length),
        storeGet s (.num (1 + i)) =
          some (recSet ((sheetRows sampleData "0").get ⟨i, hi⟩) cfg0.keyId
            (.num (1 + i))) ∧
        (∀ f, f ≠ cfg0.keyId →
          recGet (recSet ((sheetRows sampleData "0").get ⟨i, hi⟩) cfg0.keyId
            (.num (1 + i))) f =
            recGet ((sheetRows sampleData "0").get ⟨i, hi⟩) f) ∧
        recGet (recSet ((sheetRows sampleData "0").get ⟨i, hi⟩) cfg0.keyId
          (.num (1 + i))) cfg0.keyId = some (.num (1 + i))) :=
  ⟨⟨by decide, by decide, by decide, by decide, by decide⟩,
    claim_c6_amended cfg0 sampleData sampleDB "0" (by decide) (by decide)
      (by decide) (by decide) (by decide)⟩

/-! ## Claim C7 -/

/-- C7 as stated is refuted by the empty store name: before any
population, getFromStore on the store name "" fails with the
storeName-required argument error, not with the store-not-open error. -/
theorem claim_c7_counterexample :
    dbLookup emptyIDB "" = none ∧
    getFromStore emptyIDB "" [] 0 = .error .storeNameRequired ∧
    DBErr.storeNameRequired ≠ DBErr.storeNotOpen := by
  decide

/-- C7 amended: for every non-empty store name, if no successful
population has created that collection store, getFromStore fails with the
store-not-open error (the NotFoundError of the transaction call, the
spec's StoreNotOpenError) — it neither succeeds nor fails differently,
and being a pure lookup it creates no state. -/
theorem claim_c7_amended (db : IDB) (n : String) (used : List JSKey)
    (rand : Nat) (hn : n ≠ "") (hs : dbLookup db n = none) :
    getFromStore db n used rand = .error .storeNotOpen := by
  simp [getFromStore, hn, hs]

/-- Witness for the amended C7 on a concrete fresh database. -/
theorem claim_c7_amended_witness :
    ("easy" ≠ "" ∧ dbLookup emptyIDB "easy" = none) ∧
    getFromStore emptyIDB "easy" [] 0 = .error .storeNotOpen :=
  ⟨⟨by decide, by decide⟩, claim_c7_amended emptyIDB "easy" [] 0 (by decide) (by decide)⟩

/-! ## Claim C8 -/

/-- C8 as stated is refuted by a collection store named "": populate
creates it (empty), yet getFromStore on it throws the storeName-required
error instead of resolving undefined, because the argument guard tests
the store name for truthiness before any emptiness check. -/
theorem claim_c8_counterexample :
    (populateUpgrade cfg0 emptyNameData).toOption.map
        (fun db => (dbLookup db "", getFromStore db "" [] 0)) =
      some (some (mkStore "id" true),
        Except.error DBErr.storeNameRequired) ∧
    Except.error DBErr.storeNameRequired ≠
      (Except.ok (none, []) : Except DBErr (Option JSRecord × List JSKey)) := by
  decide

/-- C8 amended: for every collection store with a non-empty name that
contains zero keys, getFromStore resolves to undefined — it never throws,
rejects or blocks, the result does not depend on the random draw, and the
per-store used set is left untouched (emptiness is detected before any
selection or bookkeeping). -/
theorem claim_c8_amended (db : IDB) (n : String) (s : ObjectStore)
    (used : List JSKey) (rand : Nat)
    (hn : n ≠ "") (hs : dbLookup db n = some s) (he : s.records = []) :
    getFromStore db n used rand = .ok (none, used) := by
  have hkeys : storeKeys s = [] := by simp [storeKeys, he]
  simp [getFromStore, hn, hs, hkeys, pickRandomKey]

/-- Witness for the amended C8 on a concrete empty store. -/
theorem claim_c8_amended_witness :
    ("0" ≠ "" ∧ dbLookup ⟨[("0", mkStore "id" true)]⟩ "0" = some (mkStore "id" true) ∧
      (mkStore "id" true).records = []) ∧
    getFromStore ⟨[("0", mkStore "id" true)]⟩ "0" [JSKey.num 7] 5 =
      .ok (none, [JSKey.num 7]) :=
  ⟨⟨by decide, by decide, by decide⟩,
    claim_c8_amended ⟨[("0", mkStore "id" true)]⟩ "0" (mkStore "id" true)
      [JSKey.num 7] 5 (by decide) (by decide) (by decide)⟩

/-! ## Claim C10 -/

/-- C10: in the sampler variants, getFromStore tests the picked key with
a truthiness check, so whenever the pick on a (necessarily non-empty)
store resolves a falsy key — the number 0 or the empty string — the call
returns undefined instead of the record stored under that key, while the
key is still recorded in the per-store used set; a record is genuinely
stored under the key, so a result of undefined does not imply the store
is empty. -/
theorem claim_c10 (db : IDB) (n : String) (s : ObjectStore)
    (used : List JSKey) (rand : Nat) (k : JSKey)
    (hn : n ≠ "") (hs : dbLookup db n = some s)
    (hpick : (pickRandomKey (storeKeys s) used rand).1 = some k)
    (hf : k.falsy = true) :
    getFromStore db n used rand =
      .ok (none, (pickRandomKey (storeKeys s) used rand).2) ∧
    k ∈ (pickRandomKey (storeKeys s) used rand).2 ∧
    storeKeys s ≠ [] ∧
    ∃ v, storeGet s k = some v := by
  obtain ⟨hne, hkm, hku⟩ := pickRandomKey_some (storeKeys s) used rand k hpick
  refine ⟨?_, hku, hne, find_of_mem_map_fst s.records k hkm⟩
  simp [getFromStore, hn, hs, hpick, hf]

/-- Witness for C10: a store holding one record under the key 0; the call
returns undefined even though the store is non-empty. -/
theorem claim_c10_witness :
    ("0" ≠ "" ∧
      dbLookup ⟨[("0", ⟨"id", true, [(JSKey.num 0, [("id", JSValue.num 0)])], 1⟩)]⟩ "0" =
        some ⟨"id", true, [(JSKey.num 0, [("id", JSValue.num 0)])], 1⟩ ∧
      (pickRandomKey (storeKeys ⟨"id", true, [(JSKey.num 0, [("id", JSValue.num 0)])], 1⟩)
        [] 0).1 = some (JSKey.num 0) ∧
      (JSKey.num 0).falsy = true) ∧
    (getFromStore ⟨[("0", ⟨"id", true, [(JSKey.num 0, [("id", JSValue.num 0)])], 1⟩)]⟩
        "0" [] 0 =
      .ok (none, (pickRandomKey
        (storeKeys ⟨"id", true, [(JSKey.num 0, [("id", JSValue.num 0)])], 1⟩) [] 0).2) ∧
      JSKey.num 0 ∈ (pickRandomKey
        (storeKeys ⟨"id", true, [(JSKey.num 0, [("id", JSValue.num 0)])], 1⟩) [] 0).2 ∧
      storeKeys ⟨"id", true, [(JSKey.num 0, [("id", JSValue.num 0)])], 1⟩ ≠ [] ∧
      ∃ v, storeGet ⟨"id", true, [(JSKey.num 0, [("id", JSValue.num 0)])], 1⟩
        (JSKey.num 0) = some v) :=
  ⟨⟨by decide, by decide, by decide, by decide⟩,
    claim_c10 ⟨[("0", ⟨"id", true, [(JSKey.num 0, [("id", JSValue.num 0)])], 1⟩)]⟩
      "0" ⟨"id", true, [(JSKey.num 0, [("id", JSValue.num 0)])], 1⟩ [] 0 (JSKey.num 0)
      (by decide) (by decide) (by decide) (by decide)⟩

end DataCache
